import Mathlib

/-!
Verification of the kidney-disease-classification web application
(`app.py`, `train_model.py`).

The embedding models, faithfully to the source:

* the label enumeration `labels = ['Cyst', 'Normal', 'Stone', 'Tumor']`;
* the inline confidence resolver of `predict` (lines 113-115 and 127-129):
  `np.argmax`, `np.max`, Python `round(x, 2)` (round-half-to-even),
  `zip(labels, preds)`;
* image normalization (lines 109-111): scaling a decoded 150x150x3
  integer image by `/ 255.0` with a leading batch axis;
* the `PredictionHistory` table with SQLite autoincrement ids, the
  `history` listing (filter by user, order by date descending), and the
  `download_report` route (`get_or_404`, ownership check, FPDF render);
* the file save `file.save(os.path.join(UPLOAD_FOLDER, filename))` and
  the stored `image_path = os.path.join('uploads', filename)`.

Scores are modelled as rationals; Python `round(x, 2)` is modelled as
round-half-to-even at two decimals, `rne`.
-/

namespace KidneyApp

/-! ## Rounding: Python round(x, 2) -/

/-- Round a rational to the nearest integer, ties to even
(Python built-in `round` semantics on exact values). -/
def rne (q : ℚ) : ℤ :=
  if q - ⌊q⌋ < 1/2 then ⌊q⌋
  else if 1/2 < q - ⌊q⌋ then ⌊q⌋ + 1
  else if Even ⌊q⌋ then ⌊q⌋ else ⌊q⌋ + 1

/-- `round(x, 2)` of Python, on rationals. -/
def round2 (x : ℚ) : ℚ := (rne (x * 100) : ℚ) / 100

/-! ## np.argmax / np.max -/

/-- Tail of `np.argmax`: scan the remaining list, keeping the index of the
first occurrence of the running maximum (NumPy keeps the earliest index on
ties, updating only on strict increase). -/
def argmaxAux : List ℚ → ℚ → Nat → Nat → Nat
  | [], _, _, best => best
  | x :: xs, bv, i, best =>
    if bv < x then argmaxAux xs x (i+1) i else argmaxAux xs bv (i+1) best

/-- `np.max` on a nonempty list, as a fold. -/
def npMax (s0 : ℚ) (rest : List ℚ) : ℚ := rest.foldl max s0

/-! ## The label enumeration and the confidence resolver -/

/-- `labels = ['Cyst', 'Normal', 'Stone', 'Tumor']` (app.py line 26). -/
def labels : List String := ["Cyst", "Normal", "Stone", "Tumor"]

/-- The ephemeral result of one inference (top label, top confidence in
percent, per-label confidence table). -/
structure InferenceResult where
  topLabel : String
  topConfidence : ℚ
  table : List (String × ℚ)
  deriving Repr, DecidableEq

/-- The inline resolver of `predict` (app.py lines 113-115 and 127-129):
`predicted_class = labels[np.argmax(preds)]`,
`confidence = round(np.max(preds) * 100, 2)`,
`class_confidences = {label: round(score * 100, 2) for label, score in zip(labels, preds)}`.
`np.argmax` of an empty vector raises (ValueError); `labels[i]` with `i`
out of range raises (IndexError); there is no length check in the source. -/
def resolve (scores : List ℚ) (labs : List String) : Except String InferenceResult :=
  match scores with
  | [] => .error "ValueError"
  | s0 :: rest =>
    let i := argmaxAux rest s0 1 0
    match labs[i]? with
    | none => .error "IndexError"
    | some lab =>
      .ok { topLabel := lab
            topConfidence := round2 (npMax s0 rest * 100)
            table := (labs.zip scores).map (fun p => (p.1, round2 (p.2 * 100))) }

/-! ## Image normalization (app.py lines 109-111) -/

/-- Output contract of the external decoder
`image.load_img(filepath, target_size=(150, 150))` + `image.img_to_array`:
a 150x150 grid of 3-channel pixels with integer channel values in [0, 255]. -/
def DecodedImage (img : List (List (List ℕ))) : Prop :=
  img.length = 150 ∧
  ∀ row ∈ img, row.length = 150 ∧
    ∀ px ∈ row, px.length = 3 ∧ ∀ c ∈ px, c ≤ 255

/-- `np.expand_dims(img_array, axis=0) / 255.0` (app.py line 111):
divide every channel by 255 and add a leading batch axis of size 1. -/
def normalize (img : List (List (List ℕ))) : List (List (List (List ℚ))) :=
  [img.map (fun row => row.map (fun px => px.map (fun (c : ℕ) => (c : ℚ) / 255)))]

/-! ## Timestamps and the history ledger -/

/-- A UTC timestamp (`datetime.utcnow()`), calendar fields. -/
structure DTime where
  year : ℕ
  month : ℕ
  day : ℕ
  hour : ℕ
  minute : ℕ
  second : ℕ
  deriving Repr, DecidableEq

/-- A linear key for chronological comparison of timestamps
(field widths strictly larger than the calendar ranges, so the key order
is the lexicographic calendar order). -/
def DTime.key (d : DTime) : ℕ :=
  d.second + 60 * (d.minute + 60 * (d.hour + 24 * (d.day + 32 * (d.month + 13 * d.year))))

/-- A row of the `PredictionHistory` table (app.py lines 46-52). -/
structure HistoryRecord where
  id : ℕ
  user_id : ℕ
  prediction : String
  confidence : ℚ
  date : DTime
  image_path : String
  deriving Repr, DecidableEq

/-- The `PredictionHistory` table plus SQLite's autoincrement counter
(the next primary key to assign). -/
structure Ledger where
  records : List HistoryRecord
  nextId : ℕ
  deriving Repr, DecidableEq

/-- Well-formedness maintained by SQLite autoincrement: every stored row's
primary key is below the next id to assign (so fresh ids are unique). -/
def Ledger.WF (L : Ledger) : Prop := ∀ r ∈ L.records, r.id < L.nextId

/-- `db.session.add(history); db.session.commit()` (app.py lines 118-125):
insert one row, assigning the next primary key. Returns the new ledger and
the assigned `record_id`. -/
def Ledger.append (L : Ledger) (uid : ℕ) (pred : String) (conf : ℚ)
    (now : DTime) (path : String) : Ledger × ℕ :=
  let rid := L.nextId
  ({ records := L.records ++ [⟨rid, uid, pred, conf, now, path⟩],
     nextId := rid + 1 }, rid)

/-- `PredictionHistory.query.get(record_id)`: lookup by primary key. -/
def Ledger.get (L : Ledger) (rid : ℕ) : Option HistoryRecord :=
  L.records.find? (fun r => r.id == rid)

/-- Insert a record into a list kept in descending date order. -/
def insertByDate (r : HistoryRecord) : List HistoryRecord → List HistoryRecord
  | [] => [r]
  | x :: xs => if x.date.key ≤ r.date.key then r :: x :: xs else x :: insertByDate r xs

/-- Sort a list of records by date, most recent first
(`order_by(PredictionHistory.date.desc())`). -/
def sortByDateDesc : List HistoryRecord → List HistoryRecord
  | [] => []
  | x :: xs => insertByDate x (sortByDateDesc xs)

/-- `PredictionHistory.query.filter_by(user_id=...).order_by(date.desc()).all()`
(app.py line 143). -/
def Ledger.listFor (L : Ledger) (uid : ℕ) : List HistoryRecord :=
  sortByDateDesc (L.records.filter (fun r => r.user_id == uid))

/-! ## Report generation (app.py lines 146-168) -/

/-- Zero-pad to two digits (strftime `%m`, `%d`, `%H`, `%M`, `%S`). -/
def pad2 (n : ℕ) : String := if n < 10 then "0" ++ toString n else toString n

/-- Zero-pad to four digits (strftime `%Y`). -/
def pad4 (n : ℕ) : String :=
  if n < 10 then "000" ++ toString n
  else if n < 100 then "00" ++ toString n
  else if n < 1000 then "0" ++ toString n
  else toString n

/-- `record.date.strftime('%Y-%m-%d %H:%M:%S')` (app.py line 161). -/
def fmtDate (d : DTime) : String :=
  pad4 d.year ++ "-" ++ pad2 d.month ++ "-" ++ pad2 d.day ++ " " ++
  pad2 d.hour ++ ":" ++ pad2 d.minute ++ ":" ++ pad2 d.second

/-- The text handed to `pdf.cell` by `download_report` (app.py lines
156-162): the title cell and the four field cells, in layout order. This
is only the page text; the full document `render` wraps it with the
creation-date metadata and the latin-1 encoding step. -/
def reportText (r : HistoryRecord) : String :=
  "Kidney Disease Prediction Report\n" ++
  ("Prediction: " ++ r.prediction ++ "\n") ++
  ("Confidence: " ++ toString r.confidence ++ "%\n") ++
  ("Date: " ++ fmtDate r.date ++ "\n") ++
  ("Image Path: " ++ r.image_path ++ "\n")

/-- fpdf2 core-font text encoding: `Arial`/Helvetica cell text is encoded
in latin-1, so any character above U+00FF raises
FPDFUnicodeEncodingException. -/
def latin1Encodable (s : String) : Bool :=
  s.data.all (fun c => decide (c.toNat ≤ 255))

/-- The `D:YYYYMMDDHHmmss` creation-date metadata fpdf2 embeds in every
document it outputs, taken from the wall clock at output time. -/
def pdfCreationDate (now : DTime) : String :=
  "D:" ++ pad4 now.year ++ pad2 now.month ++ pad2 now.day ++
  pad2 now.hour ++ pad2 now.minute ++ pad2 now.second

/-- The PDF document produced by the fpdf2 calls of `download_report`
(app.py lines 153-165): `pdf.cell` raises FPDFUnicodeEncodingException
when a cell text is not latin-1 encodable (the core Arial font), and
`pdf.output` embeds the creation-date metadata, so the bytes depend on
the record and on the wall-clock creation time. -/
def render (r : HistoryRecord) (now : DTime) : Except String String :=
  if latin1Encodable (reportText r) then
    .ok ("/CreationDate (" ++ pdfCreationDate now ++ ")\n" ++ reportText r)
  else .error "FPDFUnicodeEncodingException"

/-- The two failure outcomes of `download_report`: `get_or_404` aborts with
HTTP 404; a foreign record returns `('Unauthorized', 403)`. -/
inductive ReportError where
  | notFound
  | unauthorized
  deriving Repr, DecidableEq

/-- The `download_report` route (app.py lines 146-168): look up the record
(404 if absent), check ownership (403 if foreign), else build the PDF; the
success payload here is the document's text content (`reportText` — the
creation-date metadata and the encoding failure of the PDF writer itself
are modelled by `render`). -/
def download_report (L : Ledger) (uid : ℕ) (rid : ℕ) : Except ReportError String :=
  match L.get rid with
  | none => .error .notFound
  | some record =>
    if record.user_id ≠ uid then .error .unauthorized
    else .ok (reportText record)

/-! ## File storage and the predict route -/

/-- `os.path.join` (POSIX, two arguments): an absolute second component
(leading slash, as in `b.startswith('/')`) discards the first; otherwise
join with a slash. -/
def pathJoin (a b : String) : String :=
  if b.data.head? = some '/' then b else a ++ "/" ++ b

/-- The upload folder contents: a map from file path to file bytes;
`file.save` overwrites. -/
def storeSave (store : List (String × String)) (path content : String) :
    List (String × String) :=
  (path, content) :: store.filter (fun p => p.1 ≠ path)

/-- Look up a stored file by path. -/
def storeLookup (store : List (String × String)) (path : String) : Option String :=
  (store.find? (fun p => p.1 == path)).map Prod.snd

/-- The mutable state touched by `predict`: the upload folder and the
history table. -/
structure AppState where
  store : List (String × String)
  ledger : Ledger
  deriving Repr, DecidableEq

/-- What `predict` hands to the result template (app.py lines 131-138). -/
structure PredictOutput where
  prediction : String
  confidence : ℚ
  class_confidences : List (String × ℚ)
  record_id : ℕ
  deriving Repr, DecidableEq

/-- The `predict` route (app.py lines 95-138), with the classifier
abstracted as the score vector it returns for the uploaded image: reject an
empty filename, save the upload at `os.path.join('static/uploads', filename)`
(overwriting), resolve the scores against `labels`, and append a history row
whose `image_path` is `os.path.join('uploads', filename)`. -/
def predict (st : AppState) (uid : ℕ) (filename content : String)
    (scores : List ℚ) (now : DTime) : Except String (AppState × PredictOutput) :=
  if filename = "" then .error "No selected file!"
  else
    let filepath := pathJoin "static/uploads" filename
    let store2 := storeSave st.store filepath content
    match resolve scores labels with
    | .error e => .error e
    | .ok res =>
      let ap := st.ledger.append uid res.topLabel res.topConfidence now
        (pathJoin "uploads" filename)
      .ok (⟨store2, ap.1⟩,
           ⟨res.topLabel, res.topConfidence, res.table, ap.2⟩)

/-! ## Lemmas about rounding -/

theorem floor_le_rne (q : ℚ) : ⌊q⌋ ≤ rne q := by
  unfold rne
  split_ifs <;> omega

theorem rne_le_ceil (q : ℚ) : rne q ≤ ⌈q⌉ := by
  have hfc : ⌊q⌋ ≤ ⌈q⌉ := Int.floor_le_ceil q
  have hstep : (⌊q⌋ : ℚ) < q → ⌊q⌋ + 1 ≤ ⌈q⌉ := by
    intro hlt
    have h1 : (⌊q⌋ : ℚ) < (⌈q⌉ : ℚ) := lt_of_lt_of_le hlt (Int.le_ceil q)
    have h2 : ⌊q⌋ < ⌈q⌉ := by exact_mod_cast h1
    omega
  unfold rne
  split_ifs with h1 h2 h3
  · exact hfc
  · exact hstep (by linarith)
  · exact hfc
  · exact hstep (by linarith)

theorem abs_rne_sub (q : ℚ) : |(rne q : ℚ) - q| ≤ 1/2 := by
  have h0 : (⌊q⌋ : ℚ) ≤ q := Int.floor_le q
  have h1 : q < (⌊q⌋ : ℚ) + 1 := Int.lt_floor_add_one q
  rw [abs_le]
  unfold rne
  split_ifs <;> push_cast <;> constructor <;> linarith

theorem abs_round2_sub (x : ℚ) : |round2 x - x| ≤ 1/200 := by
  have h := abs_rne_sub (x * 100)
  have h100 : round2 x - x = ((rne (x * 100) : ℚ) - x * 100) / 100 := by
    unfold round2; ring
  rw [h100, abs_div]
  rw [show |(100 : ℚ)| = 100 by norm_num]
  linarith [h]

theorem round2_nonneg {x : ℚ} (hx : 0 ≤ x) : 0 ≤ round2 x := by
  unfold round2
  have h1 : (0 : ℤ) ≤ ⌊x * 100⌋ := Int.floor_nonneg.mpr (by positivity)
  have h2 : (0 : ℤ) ≤ rne (x * 100) := le_trans h1 (floor_le_rne _)
  have h3 : (0 : ℚ) ≤ (rne (x * 100) : ℚ) := by exact_mod_cast h2
  linarith

theorem round2_le_hundred {x : ℚ} (hx : x ≤ 100) : round2 x ≤ 100 := by
  unfold round2
  have h1 : ⌈x * 100⌉ ≤ (10000 : ℤ) := Int.ceil_le.mpr (by push_cast; linarith)
  have h2 : rne (x * 100) ≤ (10000 : ℤ) := le_trans (rne_le_ceil _) h1
  have h3 : (rne (x * 100) : ℚ) ≤ 10000 := by exact_mod_cast h2
  linarith

/-! ## Lemmas about np.argmax and np.max -/

/-- `i` is the index of the maximum of `l` with ties broken by the lowest
index: `l` has value `m` at `i`, every entry is at most `m`, and every
entry strictly before `i` is strictly below `m`. -/
def IsFirstMax (l : List ℚ) (i : Nat) (m : ℚ) : Prop :=
  l[i]? = some m ∧
  (∀ (j : Nat) (z : ℚ), l[j]? = some z → z ≤ m) ∧
  (∀ (j : Nat) (z : ℚ), j < i → l[j]? = some z → z < m)

theorem argmaxAux_spec (xs : List ℚ) : ∀ (bv : ℚ) (i best : Nat),
    (argmaxAux xs bv i best = best ∧ ∀ (k : Nat) (y : ℚ), xs[k]? = some y → y ≤ bv) ∨
    (∃ (k : Nat) (y : ℚ), xs[k]? = some y ∧ argmaxAux xs bv i best = i + k ∧ bv < y ∧
      (∀ (j : Nat) (z : ℚ), j < k → xs[j]? = some z → z < y) ∧
      (∀ (j : Nat) (z : ℚ), xs[j]? = some z → z ≤ y)) := by
  induction xs with
  | nil =>
    intro bv i best
    left
    refine ⟨rfl, ?_⟩
    intro k y h
    simp at h
  | cons x xs ih =>
    intro bv i best
    by_cases hx : bv < x
    · rcases ih x (i+1) i with ⟨h1, h2⟩ | ⟨k, y, hk, hr, hlt, hbef, hall⟩
      · right
        refine ⟨0, x, by simp, ?_, hx, ?_, ?_⟩
        · simp only [argmaxAux, if_pos hx, h1]; omega
        · intro j z hj; omega
        · intro j z hj
          match j with
          | 0 => simp at hj; exact le_of_eq hj.symm
          | j+1 =>
            rw [List.getElem?_cons_succ] at hj
            exact h2 j z hj
      · right
        refine ⟨k+1, y, by simpa using hk, ?_, lt_trans hx hlt, ?_, ?_⟩
        · simp only [argmaxAux, if_pos hx, hr]; omega
        · intro j z hj hz
          match j with
          | 0 => simp at hz; exact hz ▸ hlt
          | j+1 =>
            rw [List.getElem?_cons_succ] at hz
            exact hbef j z (by omega) hz
        · intro j z hj
          match j with
          | 0 => simp at hj; exact le_of_lt (hj ▸ hlt)
          | j+1 =>
            rw [List.getElem?_cons_succ] at hj
            exact hall j z hj
    · rcases ih bv (i+1) best with ⟨h1, h2⟩ | ⟨k, y, hk, hr, hlt, hbef, hall⟩
      · left
        refine ⟨by simp only [argmaxAux, if_neg hx, h1], ?_⟩
        intro k y hk
        match k with
        | 0 => simp at hk; exact hk ▸ not_lt.mp hx
        | k+1 =>
          rw [List.getElem?_cons_succ] at hk
          exact h2 k y hk
      · right
        refine ⟨k+1, y, by simpa using hk, ?_, hlt, ?_, ?_⟩
        · simp only [argmaxAux, if_neg hx, hr]; omega
        · intro j z hj hz
          match j with
          | 0 => simp at hz; exact hz ▸ lt_of_le_of_lt (not_lt.mp hx) hlt
          | j+1 =>
            rw [List.getElem?_cons_succ] at hz
            exact hbef j z (by omega) hz
        · intro j z hj
          match j with
          | 0 => simp at hj; exact le_of_lt (hj ▸ lt_of_le_of_lt (not_lt.mp hx) hlt)
          | j+1 =>
            rw [List.getElem?_cons_succ] at hj
            exact hall j z hj

theorem argmax_isFirstMax (s0 : ℚ) (rest : List ℚ) :
    ∃ m, IsFirstMax (s0 :: rest) (argmaxAux rest s0 1 0) m := by
  rcases argmaxAux_spec rest s0 1 0 with ⟨h1, h2⟩ | ⟨k, y, hk, hr, hlt, hbef, hall⟩
  · refine ⟨s0, ?_, ?_, ?_⟩
    · rw [h1]; simp
    · intro j z hj
      match j with
      | 0 => simp at hj; exact le_of_eq hj.symm
      | j+1 =>
        rw [List.getElem?_cons_succ] at hj
        exact h2 j z hj
    · intro j z hj hz
      rw [h1] at hj
      omega
  · refine ⟨y, ?_, ?_, ?_⟩
    · rw [hr, show (1 + k) = k + 1 from Nat.add_comm 1 k]
      simpa using hk
    · intro j z hj
      match j with
      | 0 => simp at hj; exact le_of_lt (hj ▸ hlt)
      | j+1 =>
        rw [List.getElem?_cons_succ] at hj
        exact hall j z hj
    · intro j z hj hz
      rw [hr] at hj
      match j with
      | 0 => simp at hz; exact hz ▸ hlt
      | j+1 =>
        rw [List.getElem?_cons_succ] at hz
        exact hbef j z (by omega) hz

theorem foldl_max_mem (l : List ℚ) : ∀ s0 : ℚ, l.foldl max s0 ∈ s0 :: l := by
  induction l with
  | nil => intro s0; simp
  | cons x xs ih =>
    intro s0
    simp only [List.foldl_cons]
    rcases List.mem_cons.mp (ih (max s0 x)) with h | h
    · rw [h]
      rcases max_choice s0 x with hm | hm <;> rw [hm] <;> simp
    · exact List.mem_cons_of_mem _ (List.mem_cons_of_mem _ h)

theorem le_foldl_max (l : List ℚ) : ∀ s0 : ℚ, ∀ z ∈ s0 :: l, z ≤ l.foldl max s0 := by
  induction l with
  | nil => intro s0 z hz; simp at hz; simp [hz]
  | cons x xs ih =>
    intro s0 z hz
    simp only [List.foldl_cons]
    rcases List.mem_cons.mp hz with h | h
    · subst h
      exact le_trans (le_max_left z x) (ih (max z x) _ (List.mem_cons_self _ _))
    · rcases List.mem_cons.mp h with h | h
      · subst h
        exact le_trans (le_max_right s0 z) (ih (max s0 z) _ (List.mem_cons_self _ _))
      · exact ih (max s0 x) z (List.mem_cons_of_mem _ h)

theorem npMax_eq_of_isFirstMax {s0 : ℚ} {rest : List ℚ} {i : Nat} {m : ℚ}
    (h : IsFirstMax (s0 :: rest) i m) : npMax s0 rest = m := by
  obtain ⟨hi, hall, _⟩ := h
  have hmem : m ∈ s0 :: rest := List.mem_iff_getElem?.mpr ⟨i, hi⟩
  have h1 : m ≤ npMax s0 rest := le_foldl_max rest s0 m hmem
  have hfm : npMax s0 rest ∈ s0 :: rest := foldl_max_mem rest s0
  obtain ⟨j, hj⟩ := List.mem_iff_getElem?.mp hfm
  have h2 : npMax s0 rest ≤ m := hall j _ hj
  linarith

/-! ## Lemmas about the ledger and sorting -/

theorem mem_insertByDate (r x : HistoryRecord) (l : List HistoryRecord) :
    x ∈ insertByDate r l ↔ x = r ∨ x ∈ l := by
  induction l with
  | nil => simp [insertByDate]
  | cons a l ih =>
    by_cases h : a.date.key ≤ r.date.key
    · simp only [insertByDate, if_pos h]
      constructor
      · intro hx
        rcases List.mem_cons.mp hx with hx | hx
        · exact Or.inl hx
        · exact Or.inr hx
      · intro hx
        rcases hx with hx | hx
        · exact List.mem_cons.mpr (Or.inl hx)
        · exact List.mem_cons.mpr (Or.inr hx)
    · simp only [insertByDate, if_neg h]
      constructor
      · intro hx
        rcases List.mem_cons.mp hx with hx | hx
        · exact Or.inr (List.mem_cons.mpr (Or.inl hx))
        · rcases (ih.mp hx) with hx | hx
          · exact Or.inl hx
          · exact Or.inr (List.mem_cons.mpr (Or.inr hx))
      · intro hx
        rcases hx with hx | hx
        · exact List.mem_cons.mpr (Or.inr (ih.mpr (Or.inl hx)))
        · rcases List.mem_cons.mp hx with hx | hx
          · exact List.mem_cons.mpr (Or.inl hx)
          · exact List.mem_cons.mpr (Or.inr (ih.mpr (Or.inr hx)))

theorem mem_sortByDateDesc (x : HistoryRecord) (l : List HistoryRecord) :
    x ∈ sortByDateDesc l ↔ x ∈ l := by
  induction l with
  | nil => simp [sortByDateDesc]
  | cons a l ih =>
    simp only [sortByDateDesc]
    rw [mem_insertByDate, ih, List.mem_cons]

theorem pairwise_insertByDate (r : HistoryRecord) (l : List HistoryRecord)
    (h : l.Pairwise (fun a b => b.date.key ≤ a.date.key)) :
    (insertByDate r l).Pairwise (fun a b => b.date.key ≤ a.date.key) := by
  induction l with
  | nil => simp [insertByDate]
  | cons x xs ih =>
    obtain ⟨hx, hxs⟩ := List.pairwise_cons.mp h
    by_cases h1 : x.date.key ≤ r.date.key
    · simp only [insertByDate, if_pos h1]
      refine List.pairwise_cons.mpr ⟨?_, h⟩
      intro y hy
      rcases List.mem_cons.mp hy with hy | hy
      · subst hy; exact h1
      · exact le_trans (hx y hy) h1
    · simp only [insertByDate, if_neg h1]
      refine List.pairwise_cons.mpr ⟨?_, ih hxs⟩
      intro y hy
      rcases (mem_insertByDate r y xs).mp hy with hy | hy
      · subst hy; omega
      · exact hx y hy

theorem pairwise_sortByDateDesc (l : List HistoryRecord) :
    (sortByDateDesc l).Pairwise (fun a b => b.date.key ≤ a.date.key) := by
  induction l with
  | nil => simp [sortByDateDesc]
  | cons x xs ih => exact pairwise_insertByDate x (sortByDateDesc xs) ih

theorem find?_records_append {l1 l2 : List HistoryRecord} {p : HistoryRecord → Bool}
    (h : ∀ r ∈ l1, ¬ p r = true) :
    (l1 ++ l2).find? p = l2.find? p := by
  rw [List.find?_append, List.find?_eq_none.mpr h, Option.none_or]

/-! ## Unfolding the resolver -/

theorem resolve_cons_ok {s0 : ℚ} {rest : List ℚ} {labs : List String} {lab : String}
    (hlab : labs[argmaxAux rest s0 1 0]? = some lab) :
    resolve (s0 :: rest) labs = .ok
      { topLabel := lab,
        topConfidence := round2 (npMax s0 rest * 100),
        table := (labs.zip (s0 :: rest)).map (fun p => (p.1, round2 (p.2 * 100))) } := by
  simp only [resolve, hlab]

/-- Sum of the rounded percentages differs from the sum of the exact
percentages by at most `length / 200`. -/
theorem sum_round2_close (l : List ℚ) :
    |(l.map (fun s => round2 (s * 100))).sum - (l.map (fun s => s * 100)).sum| ≤
      (l.length : ℚ) * (1/200) := by
  induction l with
  | nil => simp
  | cons x xs ih =>
    simp only [List.map_cons, List.sum_cons, List.length_cons]
    have h1 := abs_round2_sub (x * 100)
    have heq : round2 (x * 100) + (xs.map (fun s => round2 (s * 100))).sum -
        (x * 100 + (xs.map (fun s => s * 100)).sum) =
        (round2 (x * 100) - x * 100) +
        ((xs.map (fun s => round2 (s * 100))).sum - (xs.map (fun s => s * 100)).sum) := by
      ring
    rw [heq]
    refine le_trans (abs_add _ _) ?_
    have hlen : ((xs.length + 1 : ℕ) : ℚ) * (1/200) =
        1/200 + (xs.length : ℚ) * (1/200) := by push_cast; ring
    rw [hlen]
    exact add_le_add h1 ih

/-! ## Claim theorems -/

/-- C1: for every score vector (of the model's output length 4) and the
fixed label enumeration `[Cyst, Normal, Stone, Tumor]`, the resolver picks
as top label the label at the index of the maximum score, ties broken by
the lowest index (`IsFirstMax`); the top confidence is the top label's raw
score times 100 rounded once to two decimals (`round2 (m * 100)`, not
re-derived from the rounded table); and scores `[0.5, 0.5, 0, 0]` yield
`Cyst`. -/
theorem C1_top_label_at_first_max_single_rounding (scores : List ℚ)
    (h4 : scores.length = 4) :
    (∃ (i : Nat) (m : ℚ) (r : InferenceResult),
      IsFirstMax scores i m ∧
      resolve scores labels = .ok r ∧
      labels[i]? = some r.topLabel ∧
      r.topConfidence = round2 (m * 100)) ∧
    (∃ r0 : InferenceResult,
      resolve [(1:ℚ)/2, 1/2, 0, 0] labels = .ok r0 ∧ r0.topLabel = "Cyst") := by
  constructor
  · match scores, h4 with
    | s0 :: rest, h4 =>
    obtain ⟨m, hfm⟩ := argmax_isFirstMax s0 rest
    have hilt : argmaxAux rest s0 1 0 < (s0 :: rest).length :=
      (List.getElem?_eq_some.mp hfm.1).1
    have hilab : argmaxAux rest s0 1 0 < labels.length := by
      simp only [labels, List.length_cons, List.length_nil]
      simp only [List.length_cons] at h4 hilt
      omega
    have hlab := List.getElem?_eq_getElem hilab
    refine ⟨argmaxAux rest s0 1 0, m, _, hfm, resolve_cons_ok hlab, hlab, ?_⟩
    rw [npMax_eq_of_isFirstMax hfm]
  · refine ⟨⟨"Cyst", 50, [("Cyst", 50), ("Normal", 50), ("Stone", 0), ("Tumor", 0)]⟩, ?_, rfl⟩
    simp only [resolve, argmaxAux, npMax, labels]
    norm_num [round2, rne]

/-- Witness for C1 at the concrete score vector `[0.3, 0.1, 0.4, 0.2]`. -/
theorem C1_witness :
    (([(3:ℚ)/10, 1/10, 2/5, 1/5] : List ℚ).length = 4) ∧
    ((∃ (i : Nat) (m : ℚ) (r : InferenceResult),
      IsFirstMax [(3:ℚ)/10, 1/10, 2/5, 1/5] i m ∧
      resolve [(3:ℚ)/10, 1/10, 2/5, 1/5] labels = .ok r ∧
      labels[i]? = some r.topLabel ∧
      r.topConfidence = round2 (m * 100)) ∧
    (∃ r0 : InferenceResult,
      resolve [(1:ℚ)/2, 1/2, 0, 0] labels = .ok r0 ∧ r0.topLabel = "Cyst")) :=
  ⟨rfl, C1_top_label_at_first_max_single_rounding [(3:ℚ)/10, 1/10, 2/5, 1/5] rfl⟩

/-- C6 (amended): the resolver never clamps, so the bounds hold only for
normalized score vectors. For every length-4 score vector with nonnegative
entries summing to 1 (as the softmax output layer produces), the resolved
top confidence lies in [0, 100] and the per-label table's values sum to
within 0.1 of 100. -/
theorem C6_normalized_scores_bounds (scores : List ℚ) (h4 : scores.length = 4)
    (hnn : ∀ s ∈ scores, 0 ≤ s) (hsum : scores.sum = 1) :
    ∃ r : InferenceResult, resolve scores labels = .ok r ∧
      0 ≤ r.topConfidence ∧ r.topConfidence ≤ 100 ∧
      |(r.table.map Prod.snd).sum - 100| ≤ 1/10 := by
  match scores, h4, hnn, hsum with
  | s0 :: rest, h4, hnn, hsum =>
  obtain ⟨m, hfm⟩ := argmax_isFirstMax s0 rest
  have hilt : argmaxAux rest s0 1 0 < (s0 :: rest).length :=
    (List.getElem?_eq_some.mp hfm.1).1
  have hilab : argmaxAux rest s0 1 0 < labels.length := by
    simp only [labels, List.length_cons, List.length_nil]
    simp only [List.length_cons] at h4 hilt
    omega
  have hlab := List.getElem?_eq_getElem hilab
  have hmem : m ∈ s0 :: rest := List.mem_iff_getElem?.mpr ⟨_, hfm.1⟩
  have hm0 : 0 ≤ m := hnn m hmem
  have hm1 : m ≤ 1 := by
    have := List.single_le_sum hnn m hmem
    rwa [hsum] at this
  refine ⟨_, resolve_cons_ok hlab, ?_, ?_, ?_⟩
  · rw [npMax_eq_of_isFirstMax hfm]
    exact round2_nonneg (by positivity)
  · rw [npMax_eq_of_isFirstMax hfm]
    exact round2_le_hundred (by linarith)
  · have hlen : (s0 :: rest).length ≤ labels.length := by
      simp only [labels, List.length_cons, List.length_nil]
      simp only [List.length_cons] at h4
      omega
    have hz : List.map Prod.snd (labels.zip (s0 :: rest)) = s0 :: rest :=
      List.map_snd_zip _ _ hlen
    have htab :
        (((labels.zip (s0 :: rest)).map
            (fun p => (p.1, round2 (p.2 * 100)))).map Prod.snd) =
          (s0 :: rest).map (fun s => round2 (s * 100)) := by
      rw [List.map_map]
      rw [show (Prod.snd ∘ fun p : String × ℚ => (p.1, round2 (p.2 * 100))) =
        ((fun s => round2 (s * 100)) ∘ Prod.snd) from rfl]
      rw [← List.map_map, hz]
    simp only [htab]
    have hS : ((s0 :: rest).map (fun s => s * 100)).sum = 100 := by
      have h100 := List.sum_map_mul_right (s0 :: rest) (fun b => b) (100 : ℚ)
      simp only [show (fun b : ℚ => b) = id from rfl, List.map_id] at h100
      rw [h100, hsum]
      norm_num
    have hclose := sum_round2_close (s0 :: rest)
    rw [hS] at hclose
    have hlen4 : (((s0 :: rest).length : ℚ)) * (1/200) ≤ 1/10 := by
      rw [show ((s0 :: rest).length) = 4 from h4]
      norm_num
    linarith [le_trans hclose hlen4]

/-- Witness for C6 at the softmax-style vector `[0.1, 0.7, 0.1, 0.1]`. -/
theorem C6_witness :
    (([(1:ℚ)/10, 7/10, 1/10, 1/10] : List ℚ).length = 4) ∧
    (∀ s ∈ ([(1:ℚ)/10, 7/10, 1/10, 1/10] : List ℚ), 0 ≤ s) ∧
    (([(1:ℚ)/10, 7/10, 1/10, 1/10] : List ℚ).sum = 1) ∧
    (∃ r : InferenceResult, resolve [(1:ℚ)/10, 7/10, 1/10, 1/10] labels = .ok r ∧
      0 ≤ r.topConfidence ∧ r.topConfidence ≤ 100 ∧
      |(r.table.map Prod.snd).sum - 100| ≤ 1/10) := by
  have h1 : (([(1:ℚ)/10, 7/10, 1/10, 1/10] : List ℚ).length = 4) := rfl
  have h2 : (∀ s ∈ ([(1:ℚ)/10, 7/10, 1/10, 1/10] : List ℚ), 0 ≤ s) := by
    intro s hs
    simp only [List.mem_cons, List.not_mem_nil, or_false] at hs
    rcases hs with h | h | h | h <;> rw [h] <;> norm_num
  have h3 : (([(1:ℚ)/10, 7/10, 1/10, 1/10] : List ℚ).sum = 1) := by
    simp only [List.sum_cons, List.sum_nil]
    norm_num
  exact ⟨h1, h2, h3, C6_normalized_scores_bounds _ h1 h2 h3⟩

/-- C6 counterexample: the resolver accepts an unnormalized score vector
and returns a top confidence of 200, outside [0, 100] (the claim fails for
inputs that are merely "accepted by the resolver"). -/
theorem C6_counterexample :
    ∃ r : InferenceResult, resolve [(2:ℚ), 0, 0, 0] labels = .ok r ∧
      ¬ (r.topConfidence ≤ 100) := by
  refine ⟨⟨"Cyst", 200, [("Cyst", 200), ("Normal", 0), ("Stone", 0), ("Tumor", 0)]⟩, ?_, by norm_num⟩
  simp only [resolve, argmaxAux, npMax, labels]
  norm_num [round2, rne]

/-- C8 (amended): the resolver performs no length check. Any nonempty score
vector no longer than the label list resolves successfully; in particular a
strictly shorter score vector raises no InputMismatch error (zip silently
truncates the table). -/
theorem C8_no_length_check (scores : List ℚ) (labs : List String)
    (hne : scores ≠ []) (hle : scores.length ≤ labs.length) :
    ∃ r : InferenceResult, resolve scores labs = .ok r := by
  match scores, hne with
  | s0 :: rest, _ =>
  obtain ⟨m, hfm⟩ := argmax_isFirstMax s0 rest
  have hilt : argmaxAux rest s0 1 0 < (s0 :: rest).length :=
    (List.getElem?_eq_some.mp hfm.1).1
  have hilab : argmaxAux rest s0 1 0 < labs.length := lt_of_lt_of_le hilt hle
  exact ⟨_, resolve_cons_ok (List.getElem?_eq_getElem hilab)⟩

/-- Witness for C8: a 3-score vector against the 4 labels resolves. -/
theorem C8_witness :
    (([(1:ℚ)/2, 3/10, 1/5] : List ℚ) ≠ []) ∧
    (([(1:ℚ)/2, 3/10, 1/5] : List ℚ).length ≤ labels.length) ∧
    (∃ r : InferenceResult, resolve [(1:ℚ)/2, 3/10, 1/5] labels = .ok r) := by
  have h1 : (([(1:ℚ)/2, 3/10, 1/5] : List ℚ) ≠ []) := by simp
  have h2 : (([(1:ℚ)/2, 3/10, 1/5] : List ℚ).length ≤ labels.length) := by
    simp [labels]
  exact ⟨h1, h2, C8_no_length_check _ _ h1 h2⟩

/-- C8 counterexample: a score vector of length 3 differs in length from
the 4 labels, yet the resolver succeeds (no InputMismatch failure),
returning `Cyst` and a silently truncated 3-entry table. -/
theorem C8_counterexample :
    ([(1:ℚ)/2, 3/10, 1/5] : List ℚ).length ≠ labels.length ∧
    resolve [(1:ℚ)/2, 3/10, 1/5] labels =
      .ok ⟨"Cyst", 50, [("Cyst", 50), ("Normal", 30), ("Stone", 20)]⟩ := by
  constructor
  · simp [labels]
  · simp only [resolve, argmaxAux, npMax, labels]
    norm_num [round2, rne]

/-- C2: for every decoded image of the supported formats (a 150x150 grid
of 3-channel pixels with values in [0, 255], the decoder's output
contract), `normalize` produces a tensor of exactly shape (1, 150, 150, 3)
whose values all lie in [0, 1]. -/
theorem C2_normalize_shape_and_range (img : List (List (List ℕ)))
    (h : DecodedImage img) :
    (normalize img).length = 1 ∧
    ∀ batch ∈ normalize img, batch.length = 150 ∧
      ∀ row ∈ batch, row.length = 150 ∧
        ∀ px ∈ row, px.length = 3 ∧
          ∀ v ∈ px, 0 ≤ v ∧ v ≤ 1 := by
  obtain ⟨h150, hrows⟩ := h
  refine ⟨rfl, ?_⟩
  intro batch hbatch
  simp only [normalize, List.mem_singleton] at hbatch
  subst hbatch
  refine ⟨by rw [List.length_map]; exact h150, ?_⟩
  intro row hrow
  obtain ⟨row0, hrow0, rfl⟩ := List.mem_map.mp hrow
  obtain ⟨hrl, hpxs⟩ := hrows row0 hrow0
  refine ⟨by rw [List.length_map]; exact hrl, ?_⟩
  intro px hpx
  obtain ⟨px0, hpx0, rfl⟩ := List.mem_map.mp hpx
  obtain ⟨hpl, hcs⟩ := hpxs px0 hpx0
  refine ⟨by rw [List.length_map]; exact hpl, ?_⟩
  intro v hv
  obtain ⟨c, hc, rfl⟩ := List.mem_map.mp hv
  have hc255 : (c : ℚ) ≤ 255 := by exact_mod_cast hcs c hc
  constructor
  · positivity
  · rw [div_le_one (by norm_num)]
    exact hc255

/-- Witness for C2 at the all-black image. -/
theorem C2_witness :
    DecodedImage (List.replicate 150 (List.replicate 150 (List.replicate 3 0))) ∧
    ((normalize (List.replicate 150 (List.replicate 150 (List.replicate 3 0)))).length = 1 ∧
    ∀ batch ∈ normalize (List.replicate 150 (List.replicate 150 (List.replicate 3 0))),
      batch.length = 150 ∧
      ∀ row ∈ batch, row.length = 150 ∧
        ∀ px ∈ row, px.length = 3 ∧
          ∀ v ∈ px, 0 ≤ v ∧ v ≤ 1) := by
  have hd : DecodedImage (List.replicate 150 (List.replicate 150 (List.replicate 3 0))) := by
    refine ⟨List.length_replicate 150 _, ?_⟩
    intro row hrow
    rw [List.eq_of_mem_replicate hrow]
    refine ⟨List.length_replicate 150 _, ?_⟩
    intro px hpx
    rw [List.eq_of_mem_replicate hpx]
    refine ⟨List.length_replicate 3 _, ?_⟩
    intro c hc
    rw [List.eq_of_mem_replicate hc]
    norm_num
  exact ⟨hd, C2_normalize_shape_and_range _ hd⟩

/-- C3: on a well-formed ledger (all stored ids below the autoincrement
counter), a successful append followed immediately by a get on the
returned id yields a record equal in all fields (identity, top label, top
confidence, timestamp, image reference) to what was appended, and the
record is also readable via listFor. -/
theorem C3_append_then_get (L : Ledger) (hWF : L.WF) (uid : ℕ) (pred : String)
    (conf : ℚ) (now : DTime) (path : String) (L2 : Ledger) (rid : ℕ)
    (happ : L.append uid pred conf now path = (L2, rid)) :
    L2.get rid = some ⟨rid, uid, pred, conf, now, path⟩ ∧
    (⟨rid, uid, pred, conf, now, path⟩ : HistoryRecord) ∈ L2.listFor uid := by
  simp only [Ledger.append, Prod.mk.injEq] at happ
  obtain ⟨hL2, hrid⟩ := happ
  subst hrid
  subst hL2
  constructor
  · rw [Ledger.get, find?_records_append]
    · simp [List.find?]
    · intro r hr
      simp only [beq_iff_eq]
      exact Nat.ne_of_lt (hWF r hr)
  · rw [Ledger.listFor, mem_sortByDateDesc, List.mem_filter]
    refine ⟨List.mem_append_right _ (List.mem_singleton.mpr rfl), by simp⟩

/-- Witness for C3: append to the empty ledger, then read back. -/
theorem C3_witness :
    (Ledger.mk [] 1).WF ∧
    ((Ledger.mk [⟨1, 7, "Cyst", 50, ⟨2025, 1, 1, 0, 0, 0⟩, "uploads/a.png"⟩] 2).get 1 =
        some ⟨1, 7, "Cyst", 50, ⟨2025, 1, 1, 0, 0, 0⟩, "uploads/a.png"⟩ ∧
      (⟨1, 7, "Cyst", 50, ⟨2025, 1, 1, 0, 0, 0⟩, "uploads/a.png"⟩ : HistoryRecord) ∈
        (Ledger.mk [⟨1, 7, "Cyst", 50, ⟨2025, 1, 1, 0, 0, 0⟩, "uploads/a.png"⟩] 2).listFor 7) := by
  have hwf : (Ledger.mk [] 1).WF := by
    intro r hr
    simp at hr
  exact ⟨hwf,
    C3_append_then_get (Ledger.mk [] 1) hwf 7 "Cyst" 50 ⟨2025, 1, 1, 0, 0, 0⟩
      "uploads/a.png" _ _ rfl⟩

/-- C4: every record returned by listFor(identity) belongs to that
identity, and the returned sequence is ordered most recent first
(non-increasing creation timestamps). -/
theorem C4_listFor_owner_and_order (L : Ledger) (uid : ℕ) :
    (∀ r ∈ L.listFor uid, r.user_id = uid) ∧
    (L.listFor uid).Pairwise (fun a b => b.date.key ≤ a.date.key) := by
  constructor
  · intro r hr
    rw [Ledger.listFor, mem_sortByDateDesc] at hr
    have h := List.mem_filter.mp hr
    simpa using h.2
  · exact pairwise_sortByDateDesc _

/-- Witness for C4 on a two-user ledger. -/
theorem C4_witness :
    (∀ r ∈ (Ledger.mk
        [⟨1, 7, "Cyst", 50, ⟨2025, 1, 1, 0, 0, 0⟩, "uploads/a.png"⟩,
         ⟨2, 8, "Stone", 60, ⟨2025, 1, 2, 0, 0, 0⟩, "uploads/b.png"⟩,
         ⟨3, 7, "Tumor", 70, ⟨2025, 1, 3, 0, 0, 0⟩, "uploads/c.png"⟩] 4).listFor 7,
      r.user_id = 7) ∧
    ((Ledger.mk
        [⟨1, 7, "Cyst", 50, ⟨2025, 1, 1, 0, 0, 0⟩, "uploads/a.png"⟩,
         ⟨2, 8, "Stone", 60, ⟨2025, 1, 2, 0, 0, 0⟩, "uploads/b.png"⟩,
         ⟨3, 7, "Tumor", 70, ⟨2025, 1, 3, 0, 0, 0⟩, "uploads/c.png"⟩] 4).listFor 7).Pairwise
      (fun a b => b.date.key ≤ a.date.key) :=
  C4_listFor_owner_and_order _ 7

/-- C5: a report request naming an existing record owned by a different
identity fails with the authorization error, never returning document
bytes. -/
theorem C5_foreign_record_unauthorized (L : Ledger) (uid rid : ℕ)
    (r : HistoryRecord) (hget : L.get rid = some r) (hne : r.user_id ≠ uid) :
    download_report L uid rid = .error .unauthorized := by
  simp only [download_report, hget]
  rw [if_pos hne]

/-- Witness for C5: user 9 requests user 7's record. -/
theorem C5_witness :
    (Ledger.mk [⟨1, 7, "Cyst", 50, ⟨2025, 1, 1, 0, 0, 0⟩, "uploads/a.png"⟩] 2).get 1 =
      some ⟨1, 7, "Cyst", 50, ⟨2025, 1, 1, 0, 0, 0⟩, "uploads/a.png"⟩ ∧
    (7 : ℕ) ≠ 9 ∧
    download_report
      (Ledger.mk [⟨1, 7, "Cyst", 50, ⟨2025, 1, 1, 0, 0, 0⟩, "uploads/a.png"⟩] 2) 9 1 =
      .error .unauthorized :=
  ⟨rfl, by decide,
    C5_foreign_record_unauthorized _ 9 1
      ⟨1, 7, "Cyst", 50, ⟨2025, 1, 1, 0, 0, 0⟩, "uploads/a.png"⟩ rfl (by decide)⟩

/-- C7 (amended): report rendering is a deterministic pure function of
the record and the PDF creation timestamp — identical records render
byte-identically at equal creation times (the document embeds the
creation date, so equal times are required); when the record's text
content is latin-1 encodable, rendering succeeds and the document
contains the prediction label, the confidence, the image reference
string, the timestamp formatted as YYYY-MM-DD HH:MM:SS (`fmtDate`), and
the creation-date metadata; when the content is not latin-1 encodable
(e.g. an image path from an unsanitized client filename), rendering
fails with the unicode-encoding error. -/
theorem C7_render_deterministic_at_fixed_time (r1 r2 : HistoryRecord) (t : DTime)
    (h : r1 = r2) :
    render r1 t = render r2 t ∧
    (latin1Encodable (reportText r1) = true →
      ∃ doc, render r1 t = .ok doc ∧
        (∃ a b, doc = a ++ ("Prediction: " ++ r1.prediction ++ "\n") ++ b) ∧
        (∃ a b, doc = a ++ ("Confidence: " ++ toString r1.confidence ++ "%\n") ++ b) ∧
        (∃ a b, doc = a ++ ("Date: " ++ fmtDate r1.date ++ "\n") ++ b) ∧
        (∃ a b, doc = a ++ ("Image Path: " ++ r1.image_path ++ "\n") ++ b) ∧
        (∃ a b, doc = a ++ pdfCreationDate t ++ b)) ∧
    (latin1Encodable (reportText r1) = false →
      render r1 t = .error "FPDFUnicodeEncodingException") := by
  subst h
  refine ⟨rfl, ?_, ?_⟩
  · intro henc
    refine ⟨"/CreationDate (" ++ pdfCreationDate t ++ ")\n" ++ reportText r1,
      by rw [render, if_pos henc], ?_, ?_, ?_, ?_, ?_⟩
    · refine ⟨("/CreationDate (" ++ pdfCreationDate t ++ ")\n") ++
        "Kidney Disease Prediction Report\n",
        ("Confidence: " ++ toString r1.confidence ++ "%\n") ++
          (("Date: " ++ fmtDate r1.date ++ "\n") ++
            ("Image Path: " ++ r1.image_path ++ "\n")), ?_⟩
      simp only [reportText, String.append_assoc, String.append_empty]
    · refine ⟨("/CreationDate (" ++ pdfCreationDate t ++ ")\n") ++
        ("Kidney Disease Prediction Report\n" ++
          ("Prediction: " ++ r1.prediction ++ "\n")),
        ("Date: " ++ fmtDate r1.date ++ "\n") ++
          ("Image Path: " ++ r1.image_path ++ "\n"), ?_⟩
      simp only [reportText, String.append_assoc, String.append_empty]
    · refine ⟨("/CreationDate (" ++ pdfCreationDate t ++ ")\n") ++
        ("Kidney Disease Prediction Report\n" ++
          ("Prediction: " ++ r1.prediction ++ "\n") ++
          ("Confidence: " ++ toString r1.confidence ++ "%\n")),
        "Image Path: " ++ r1.image_path ++ "\n", ?_⟩
      simp only [reportText, String.append_assoc, String.append_empty]
    · refine ⟨("/CreationDate (" ++ pdfCreationDate t ++ ")\n") ++
        ("Kidney Disease Prediction Report\n" ++
          ("Prediction: " ++ r1.prediction ++ "\n") ++
          ("Confidence: " ++ toString r1.confidence ++ "%\n") ++
          ("Date: " ++ fmtDate r1.date ++ "\n")), "", ?_⟩
      simp only [reportText, String.append_assoc, String.append_empty]
    · refine ⟨"/CreationDate (", ")\n" ++ reportText r1, ?_⟩
      simp only [String.append_assoc]
  · intro henc
    rw [render, if_neg (by simp [henc])]

/-- Witness for C7 at a concrete record and creation time. -/
theorem C7_witness :
    render ⟨1, 7, "Cyst", 50, ⟨2025, 1, 1, 0, 0, 0⟩, "uploads/a.png"⟩ ⟨2025, 1, 2, 3, 4, 5⟩ =
      render ⟨1, 7, "Cyst", 50, ⟨2025, 1, 1, 0, 0, 0⟩, "uploads/a.png"⟩ ⟨2025, 1, 2, 3, 4, 5⟩ ∧
    (latin1Encodable (reportText ⟨1, 7, "Cyst", 50, ⟨2025, 1, 1, 0, 0, 0⟩, "uploads/a.png"⟩) = true →
      ∃ doc, render ⟨1, 7, "Cyst", 50, ⟨2025, 1, 1, 0, 0, 0⟩, "uploads/a.png"⟩ ⟨2025, 1, 2, 3, 4, 5⟩ = .ok doc ∧
        (∃ a b, doc = a ++ ("Prediction: " ++ "Cyst" ++ "\n") ++ b) ∧
        (∃ a b, doc = a ++ ("Confidence: " ++ toString (50 : ℚ) ++ "%\n") ++ b) ∧
        (∃ a b, doc = a ++ ("Date: " ++ fmtDate ⟨2025, 1, 1, 0, 0, 0⟩ ++ "\n") ++ b) ∧
        (∃ a b, doc = a ++ ("Image Path: " ++ "uploads/a.png" ++ "\n") ++ b) ∧
        (∃ a b, doc = a ++ pdfCreationDate ⟨2025, 1, 2, 3, 4, 5⟩ ++ b)) ∧
    (latin1Encodable (reportText ⟨1, 7, "Cyst", 50, ⟨2025, 1, 1, 0, 0, 0⟩, "uploads/a.png"⟩) = false →
      render ⟨1, 7, "Cyst", 50, ⟨2025, 1, 1, 0, 0, 0⟩, "uploads/a.png"⟩ ⟨2025, 1, 2, 3, 4, 5⟩ =
        .error "FPDFUnicodeEncodingException") :=
  C7_render_deterministic_at_fixed_time _ _ ⟨2025, 1, 2, 3, 4, 5⟩ rfl

/-- C7 counterexample: two renders of the identical record at different
wall-clock times differ (the embedded creation date changes), and a
valid record whose image path carries a non-latin-1 client filename
makes rendering fail — refuting the byte-identity-across-calls and
never-fails conjuncts of the original claim. -/
theorem C7_counterexample :
    render ⟨1, 7, "Cyst", 50, ⟨2025, 1, 1, 0, 0, 0⟩, "uploads/a.png"⟩ ⟨2025, 1, 1, 0, 0, 0⟩ ≠
      render ⟨1, 7, "Cyst", 50, ⟨2025, 1, 1, 0, 0, 0⟩, "uploads/a.png"⟩ ⟨2025, 1, 1, 0, 0, 1⟩ ∧
    render ⟨2, 7, "Cyst", 50, ⟨2025, 1, 1, 0, 0, 0⟩, "uploads/†.png"⟩ ⟨2025, 1, 1, 0, 0, 0⟩ =
      .error "FPDFUnicodeEncodingException" := by
  constructor
  · intro h
    simp only [render] at h
    rw [if_pos (by decide), if_pos (by decide)] at h
    injection h with h2
    exact absurd h2 (by decide)
  · rw [render, if_neg (by decide)]

/-- C10: for every report request, an id with no record yields the
NotFound outcome, an existing record owned by another identity yields the
distinct Unauthorized outcome, and the two outcomes differ (the existence
check precedes the ownership check). -/
theorem C10_notfound_distinct_from_unauthorized (L : Ledger) (uid rid : ℕ) :
    (L.get rid = none → download_report L uid rid = .error .notFound) ∧
    (∀ r : HistoryRecord, L.get rid = some r → r.user_id ≠ uid →
      download_report L uid rid = .error .unauthorized) ∧
    (ReportError.notFound ≠ ReportError.unauthorized) := by
  refine ⟨?_, ?_, by decide⟩
  · intro h
    simp only [download_report, h]
  · intro r h hne
    simp only [download_report, h]
    rw [if_pos hne]

/-- Witness for C10: an unknown id on a concrete ledger yields NotFound. -/
theorem C10_witness :
    download_report
      (Ledger.mk [⟨1, 7, "Cyst", 50, ⟨2025, 1, 1, 0, 0, 0⟩, "uploads/a.png"⟩] 2) 9 5 =
      .error .notFound :=
  (C10_notfound_distinct_from_unauthorized _ 9 5).1 rfl

/-- C9: the stored image reference is determined solely by the uploaded
file's client-supplied filename. For any two successful predict requests
(any identities, contents, scores) carrying equal filenames, the two
created records hold identical image_path values
(`os.path.join('uploads', filename)`), and the single stored file at the
upload path holds the second upload's content (the later upload overwrote
the earlier one). -/
theorem C9_image_path_determined_by_filename (st : AppState) (hWF : st.ledger.WF)
    (uid1 uid2 : ℕ) (fn c1 c2 : String) (s1 s2 : List ℚ) (t1 t2 : DTime)
    (st2 st3 : AppState) (o1 o2 : PredictOutput)
    (h1 : predict st uid1 fn c1 s1 t1 = .ok (st2, o1))
    (h2 : predict st2 uid2 fn c2 s2 t2 = .ok (st3, o2)) :
    ∃ r1 r2 : HistoryRecord,
      st3.ledger.get o1.record_id = some r1 ∧
      st3.ledger.get o2.record_id = some r2 ∧
      r1.image_path = r2.image_path ∧
      r2.image_path = pathJoin "uploads" fn ∧
      storeLookup st3.store (pathJoin "static/uploads" fn) = some c2 := by
  by_cases hfn : fn = ""
  · simp only [predict, if_pos hfn] at h1
    exact absurd h1 (by simp)
  · simp only [predict, if_neg hfn] at h1 h2
    cases hres1 : resolve s1 labels with
    | error e => rw [hres1] at h1; simp at h1
    | ok res1 =>
      rw [hres1] at h1
      simp only [Ledger.append, Except.ok.injEq, Prod.mk.injEq] at h1
      obtain ⟨hst2, ho1⟩ := h1
      subst hst2
      subst ho1
      cases hres2 : resolve s2 labels with
      | error e => rw [hres2] at h2; simp at h2
      | ok res2 =>
        rw [hres2] at h2
        simp only [Ledger.append, Except.ok.injEq, Prod.mk.injEq] at h2
        obtain ⟨hst3, ho2⟩ := h2
        subst hst3
        subst ho2
        refine ⟨⟨st.ledger.nextId, uid1, res1.topLabel, res1.topConfidence, t1,
                  pathJoin "uploads" fn⟩,
                ⟨st.ledger.nextId + 1, uid2, res2.topLabel, res2.topConfidence, t2,
                  pathJoin "uploads" fn⟩,
                ?_, ?_, rfl, rfl, ?_⟩
        · rw [Ledger.get]
          dsimp only
          rw [List.append_assoc, List.singleton_append]
          rw [find?_records_append (fun r hr => by
            simp only [beq_iff_eq]
            exact Nat.ne_of_lt (hWF r hr))]
          exact List.find?_cons_of_pos _ (beq_self_eq_true _)
        · rw [Ledger.get]
          dsimp only
          rw [List.append_assoc, List.singleton_append]
          rw [find?_records_append (fun r hr => by
            simp only [beq_iff_eq]
            have := hWF r hr
            omega)]
          rw [List.find?_cons_of_neg _ (by simp)]
          exact List.find?_cons_of_pos _ (beq_self_eq_true _)
        · rw [storeLookup, storeSave]
          dsimp only
          simp

/-- Witness for C9: two uploads named scan.png by users 7 and 8. -/
theorem C9_witness :
    (AppState.mk [] (Ledger.mk [] 1)).ledger.WF ∧
    predict (AppState.mk [] (Ledger.mk [] 1)) 7 "scan.png" "A" [1,0,0,0]
        ⟨2025,1,1,0,0,0⟩ =
      .ok (AppState.mk [("static/uploads/scan.png", "A")]
            (Ledger.mk [⟨1, 7, "Cyst", 100, ⟨2025,1,1,0,0,0⟩, "uploads/scan.png"⟩] 2),
           ⟨"Cyst", 100, [("Cyst",100),("Normal",0),("Stone",0),("Tumor",0)], 1⟩) ∧
    predict (AppState.mk [("static/uploads/scan.png", "A")]
            (Ledger.mk [⟨1, 7, "Cyst", 100, ⟨2025,1,1,0,0,0⟩, "uploads/scan.png"⟩] 2))
        8 "scan.png" "B" [1,0,0,0] ⟨2025,1,2,0,0,0⟩ =
      .ok (AppState.mk [("static/uploads/scan.png", "B")]
            (Ledger.mk [⟨1, 7, "Cyst", 100, ⟨2025,1,1,0,0,0⟩, "uploads/scan.png"⟩,
                        ⟨2, 8, "Cyst", 100, ⟨2025,1,2,0,0,0⟩, "uploads/scan.png"⟩] 3),
           ⟨"Cyst", 100, [("Cyst",100),("Normal",0),("Stone",0),("Tumor",0)], 2⟩) ∧
    (∃ r1 r2 : HistoryRecord,
      (Ledger.mk [⟨1, 7, "Cyst", 100, ⟨2025,1,1,0,0,0⟩, "uploads/scan.png"⟩,
                  ⟨2, 8, "Cyst", 100, ⟨2025,1,2,0,0,0⟩, "uploads/scan.png"⟩] 3).get 1 =
        some r1 ∧
      (Ledger.mk [⟨1, 7, "Cyst", 100, ⟨2025,1,1,0,0,0⟩, "uploads/scan.png"⟩,
                  ⟨2, 8, "Cyst", 100, ⟨2025,1,2,0,0,0⟩, "uploads/scan.png"⟩] 3).get 2 =
        some r2 ∧
      r1.image_path = r2.image_path ∧
      r2.image_path = pathJoin "uploads" "scan.png" ∧
      storeLookup [("static/uploads/scan.png", "B")]
        (pathJoin "static/uploads" "scan.png") = some "B") := by
  have hres : resolve [(1:ℚ),0,0,0] labels =
      .ok ⟨"Cyst", 100, [("Cyst",100),("Normal",0),("Stone",0),("Tumor",0)]⟩ := by
    simp only [resolve, argmaxAux, npMax, labels]
    norm_num [round2, rne]
  have hp1 : pathJoin "static/uploads" "scan.png" = "static/uploads/scan.png" := by
    rw [pathJoin, if_neg (by decide)]
    rfl
  have hp2 : pathJoin "uploads" "scan.png" = "uploads/scan.png" := by
    rw [pathJoin, if_neg (by decide)]
    rfl
  have hwf : (AppState.mk [] (Ledger.mk [] 1)).ledger.WF := by
    intro r hr
    simp at hr
  have hA : predict (AppState.mk [] (Ledger.mk [] 1)) 7 "scan.png" "A" [1,0,0,0]
        ⟨2025,1,1,0,0,0⟩ =
      .ok (AppState.mk [("static/uploads/scan.png", "A")]
            (Ledger.mk [⟨1, 7, "Cyst", 100, ⟨2025,1,1,0,0,0⟩, "uploads/scan.png"⟩] 2),
           ⟨"Cyst", 100, [("Cyst",100),("Normal",0),("Stone",0),("Tumor",0)], 1⟩) := by
    simp only [predict, hres, hp1, hp2, Ledger.append, storeSave, List.filter]
    rw [if_neg (by decide)]
    rfl
  have hB : predict (AppState.mk [("static/uploads/scan.png", "A")]
            (Ledger.mk [⟨1, 7, "Cyst", 100, ⟨2025,1,1,0,0,0⟩, "uploads/scan.png"⟩] 2))
        8 "scan.png" "B" [1,0,0,0] ⟨2025,1,2,0,0,0⟩ =
      .ok (AppState.mk [("static/uploads/scan.png", "B")]
            (Ledger.mk [⟨1, 7, "Cyst", 100, ⟨2025,1,1,0,0,0⟩, "uploads/scan.png"⟩,
                        ⟨2, 8, "Cyst", 100, ⟨2025,1,2,0,0,0⟩, "uploads/scan.png"⟩] 3),
           ⟨"Cyst", 100, [("Cyst",100),("Normal",0),("Stone",0),("Tumor",0)], 2⟩) := by
    simp only [predict, hres, hp1, hp2, Ledger.append, storeSave, List.filter]
    rw [if_neg (by decide)]
    rfl
  exact ⟨hwf, hA, hB,
    C9_image_path_determined_by_filename _ hwf 7 8 "scan.png" "A" "B" _ _ _ _ _ _ _ _ hA hB⟩

end KidneyApp
